import Mathlib

/-!
Verification of the raster annotation and region-extraction engine implemented in
`src/frontend/src/routes/dev/PaintableImage.svelte`.

The development shallowly embeds the component's script-level state and operations:

* the history stack (`pushUndo`, `undo`, `redo`, `clearCanvas`) and the pointer
  input translator (`onPointerDown`), over an abstract overlay-raster type, with
  a reachability relation for the editing session;
* the device-space overlay raster (`Canvas`), the alpha-channel bounding-box
  scan of `breakBones` (`scanOverlay`), and the submission pipeline
  (`breakBones`) with its two network modes.

Fallible browser operations (`canvas.toDataURL`, `canvas.toBlob`, the network
response) are modelled by explicit success/failure parameters; encoded PNG
snapshots are lossless, so a history snapshot is modelled as the raster value
itself.
-/

namespace TeddyPaint

/-- Editing-session state of the drawing surface. The overlay raster is
abstracted to a type `α`, since the history logic never inspects pixel data
(a history entry is a lossless PNG data-URL snapshot of the overlay canvas,
modelled as the overlay value itself). Fields mirror the component's
script-level variables `drawing`, `lastX`, `lastY`, the overlay canvas, and
the arrays `undoStack` and `redoStack` (oldest entry first, as for a JS array
grown with `push` and trimmed with `shift`). -/
structure EditState (α : Type) where
  drawing : Bool
  lastX : ℚ
  lastY : ℚ
  overlay : α
  undoStack : List α
  redoStack : List α
deriving DecidableEq

/-- The capacity step of `pushUndo`: after a `push`, `if (undoStack.length > 25)
undoStack.shift()` drops the oldest (front) entry. -/
def capped {α : Type} (u : List α) : List α :=
  if 25 < u.length then u.tail else u

/-- `pushUndo()` from the source: inside a `try`, snapshot the canvas with
`toDataURL` and `push` it, `shift` the oldest entry when the stack holds more
than 25 entries, then clear `redoStack`. `ok` models whether `toDataURL`
succeeds; when it throws, the `catch` swallows the error before any mutation,
so the whole call is a no-op. -/
def pushUndo {α : Type} (s : EditState α) (ok : Bool) : EditState α :=
  if ok then
    { s with undoStack := capped (s.undoStack ++ [s.overlay]), redoStack := [] }
  else s

/-- `undo()` from the source: a no-op on an empty `undoStack`; otherwise, inside
a `try`, snapshot the current canvas (`ok` models `toDataURL` success — on
failure nothing happens), `push` that snapshot onto `redoStack`, `pop` the most
recent undo entry and restore the canvas from it (`restoreFrom` redraws the
decoded snapshot, modelled as installing the stored raster). -/
def undo {α : Type} (s : EditState α) (ok : Bool) : EditState α :=
  match s.undoStack.getLast? with
  | none => s
  | some last =>
    if ok then
      { s with overlay := last, undoStack := s.undoStack.dropLast,
               redoStack := s.redoStack ++ [s.overlay] }
    else s

/-- `redo()` from the source, symmetric to `undo()`: a no-op on an empty
`redoStack`; otherwise pushes the current snapshot onto `undoStack`, pops the
most recent redo entry and restores the canvas from it. -/
def redo {α : Type} (s : EditState α) (ok : Bool) : EditState α :=
  match s.redoStack.getLast? with
  | none => s
  | some next =>
    if ok then
      { s with overlay := next, redoStack := s.redoStack.dropLast,
               undoStack := s.undoStack ++ [s.overlay] }
    else s

/-- `clearCanvas()` from the source: `pushUndo()` followed by clearing the
overlay (`clearRect` over the full canvas); `blank` is the cleared raster. -/
def clearCanvas {α : Type} (s : EditState α) (ok : Bool) (blank : α) : EditState α :=
  { pushUndo s ok with overlay := blank }

/-- `onPointerDown(e)` from the source: events with `e.button === 1` (middle)
or `e.button === 2` (secondary) return immediately; any other button code runs
`pushUndo()`, sets `drawing = true`, stores the event's display-space position
in `lastX`/`lastY` and draws a single-point stroke. The raster produced by
`drawPoint` is abstract here and passed as `drawn` (pointer capture is
best-effort and does not affect this state). -/
def onPointerDown {α : Type} (s : EditState α) (button : Nat) (px py : ℚ)
    (ok : Bool) (drawn : α) : EditState α :=
  if button = 1 ∨ button = 2 then s
  else
    { pushUndo s ok with drawing := true, lastX := px, lastY := py, overlay := drawn }

/-- Operations that can touch the editing-session state during one image's
session. `passive` soundly over-approximates every remaining event that never
touches the history stacks (pointer moves and pointer up, window resizes, the
feedback drawing and the queued-mode branch of a submission): it may rewrite
any field except `undoStack`/`redoStack`. `imageLoad` (a new image finishing
loading) and `submitDirectOk` (a successful direct-mode submission) reset both
stacks and the overlay, as in the source. -/
inductive Op (α : Type) where
  | pointerDown (button : Nat) (px py : ℚ) (ok : Bool) (drawn : α)
  | clearOp (ok : Bool) (blank : α)
  | undoOp (ok : Bool)
  | redoOp (ok : Bool)
  | imageLoad (blank : α)
  | submitDirectOk (blank : α)
  | passive (ov : α) (fl : Bool) (lx ly : ℚ)

/-- One step of the editing session. -/
def applyOp {α : Type} (s : EditState α) : Op α → EditState α
  | .pointerDown b px py ok d => onPointerDown s b px py ok d
  | .clearOp ok blank => clearCanvas s ok blank
  | .undoOp ok => undo s ok
  | .redoOp ok => redo s ok
  | .imageLoad blank => { s with overlay := blank, undoStack := [], redoStack := [] }
  | .submitDirectOk blank => { s with overlay := blank, undoStack := [], redoStack := [] }
  | .passive ov fl lx ly => { s with overlay := ov, drawing := fl, lastX := lx, lastY := ly }

/-- State right after an image loads: empty history, not drawing. -/
def initState {α : Type} (ov : α) : EditState α :=
  { drawing := false, lastX := 0, lastY := 0, overlay := ov,
    undoStack := [], redoStack := [] }

/-- Editing-session states reachable from a freshly loaded image. -/
inductive Reachable {α : Type} : EditState α → Prop where
  | init (ov : α) : Reachable (initState ov)
  | step {s : EditState α} (h : Reachable s) (op : Op α) : Reachable (applyOp s op)

lemma capped_length_le {α : Type} (u : List α) (h : u.length ≤ 26) :
    (capped u).length ≤ 25 := by
  unfold capped
  split
  · next hlt => simp only [List.length_tail]; omega
  · next hge => omega

lemma capped_eq_of_le {α : Type} (u : List α) (h : u.length ≤ 25) :
    capped u = u :=
  if_neg (by omega)

lemma capped_eq_of_gt {α : Type} (u : List α) (h : 25 < u.length) :
    capped u = u.tail :=
  if_pos h

lemma tail_append_single {α : Type} (u : List α) (o : α) (h : u ≠ []) :
    (u ++ [o]).tail = u.tail ++ [o] := by
  cases u with
  | nil => exact absurd rfl h
  | cons a t => simp

lemma capped_concat_getLast {α : Type} (u : List α) (o : α) :
    (capped (u ++ [o])).getLast? = some o := by
  unfold capped
  split
  · next hlt =>
    have hne : u ≠ [] := by
      intro hnil
      subst hnil
      simp at hlt
    rw [tail_append_single u o hne, List.getLast?_concat]
  · exact List.getLast?_concat u

lemma pushUndo_true_eq {α : Type} (s : EditState α) :
    pushUndo s true =
      { s with undoStack := capped (s.undoStack ++ [s.overlay]), redoStack := [] } := by
  simp [pushUndo]

lemma pushUndo_sum_le {α : Type} (s : EditState α) (ok : Bool)
    (h : s.undoStack.length + s.redoStack.length ≤ 25) :
    (pushUndo s ok).undoStack.length + (pushUndo s ok).redoStack.length ≤ 25 := by
  cases ok with
  | false => simpa [pushUndo] using h
  | true =>
    rw [pushUndo_true_eq]
    simp only [List.length_nil, Nat.add_zero]
    exact capped_length_le _ (by simp; omega)

lemma undo_sum_le {α : Type} (s : EditState α) (ok : Bool)
    (h : s.undoStack.length + s.redoStack.length ≤ 25) :
    (undo s ok).undoStack.length + (undo s ok).redoStack.length ≤ 25 := by
  unfold undo
  split
  · exact h
  · next last heq =>
    have hne : s.undoStack ≠ [] := by
      intro hnil
      rw [hnil] at heq
      simp at heq
    have hlen : 0 < s.undoStack.length := List.length_pos.mpr hne
    cases ok with
    | false => simpa using h
    | true =>
      simp only [if_true, List.length_dropLast, List.length_append, List.length_cons,
        List.length_nil]
      omega

lemma redo_sum_le {α : Type} (s : EditState α) (ok : Bool)
    (h : s.undoStack.length + s.redoStack.length ≤ 25) :
    (redo s ok).undoStack.length + (redo s ok).redoStack.length ≤ 25 := by
  unfold redo
  split
  · exact h
  · next next heq =>
    have hne : s.redoStack ≠ [] := by
      intro hnil
      rw [hnil] at heq
      simp at heq
    have hlen : 0 < s.redoStack.length := List.length_pos.mpr hne
    cases ok with
    | false => simpa using h
    | true =>
      simp only [if_true, List.length_dropLast, List.length_append, List.length_cons,
        List.length_nil]
      omega

lemma applyOp_sum_le {α : Type} (s : EditState α) (op : Op α)
    (h : s.undoStack.length + s.redoStack.length ≤ 25) :
    (applyOp s op).undoStack.length + (applyOp s op).redoStack.length ≤ 25 := by
  cases op with
  | pointerDown b px py ok d =>
    simp only [applyOp, onPointerDown]
    split
    · exact h
    · simpa using pushUndo_sum_le s ok h
  | clearOp ok blank => simpa [applyOp, clearCanvas] using pushUndo_sum_le s ok h
  | undoOp ok => exact undo_sum_le s ok h
  | redoOp ok => exact redo_sum_le s ok h
  | imageLoad blank => simp [applyOp]
  | submitDirectOk blank => simp [applyOp]
  | passive ov fl lx ly => simpa [applyOp] using h

lemma reachable_sum_le {α : Type} {s : EditState α} (h : Reachable s) :
    s.undoStack.length + s.redoStack.length ≤ 25 := by
  induction h with
  | init ov => simp [initState]
  | step h op ih => exact applyOp_sum_le _ op ih

/-- C3: for every reachable editing-session state and every operation of the
history stack and drawing surface — stroke start, clear, undo, redo, and every
other session event — the undo stack holds at most 25 entries afterwards. -/
theorem c3_undo_cap {α : Type} (s : EditState α) (op : Op α) (h : Reachable s) :
    (applyOp s op).undoStack.length ≤ 25 := by
  have := reachable_sum_le (Reachable.step h op)
  omega

/-- Witness for C3 at a concrete reachable state and operation. -/
theorem c3_undo_cap_witness :
    (applyOp (initState (0 : Nat)) (Op.undoOp true)).undoStack.length ≤ 25 :=
  c3_undo_cap (initState (0 : Nat)) (Op.undoOp true) (Reachable.init 0)

/-- C4, counterexample: `recordBeforeChange` does not clear `redoEntries`
unconditionally. In the source, `redoStack = []` sits inside the `try` block
after `canvas.toDataURL`, so when taking the snapshot fails the whole call is a
no-op and the redo stack is left untouched. Here a failing snapshot on a state
with a non-empty redo stack leaves it non-empty. -/
theorem c4_redo_kept_on_snapshot_failure :
    (pushUndo (⟨false, 0, 0, 9, [1], [2]⟩ : EditState Nat) false).redoStack ≠ [] := by
  decide

/-- C4, amended: when the snapshot succeeds, `recordBeforeChange` appends it to
`undoEntries` — evicting exactly the oldest entry (FIFO) when the push would
leave more than 25 entries — and clears `redoEntries`; when the snapshot fails
the whole invocation is a no-op, leaving `redoEntries` (and everything else)
unchanged. -/
theorem c4_pushUndo_amended {α : Type} (s : EditState α) :
    pushUndo s false = s ∧
    (pushUndo s true).redoStack = [] ∧
    (s.undoStack.length ≤ 24 →
      (pushUndo s true).undoStack = s.undoStack ++ [s.overlay]) ∧
    (25 ≤ s.undoStack.length →
      (pushUndo s true).undoStack = s.undoStack.tail ++ [s.overlay]) := by
  refine ⟨by simp [pushUndo], by rw [pushUndo_true_eq], ?_, ?_⟩
  · intro h
    rw [pushUndo_true_eq]
    exact capped_eq_of_le _ (by simp; omega)
  · intro h
    have hne : s.undoStack ≠ [] := by
      intro hnil
      rw [hnil] at h
      simp at h
    rw [pushUndo_true_eq]
    show capped (s.undoStack ++ [s.overlay]) = s.undoStack.tail ++ [s.overlay]
    rw [capped_eq_of_gt _ (by simp; omega)]
    exact tail_append_single s.undoStack s.overlay hne

/-- Witness for C4's amended statement: a successful snapshot push onto a full
undo stack evicts exactly the oldest entry and clears the redo stack. -/
theorem c4_pushUndo_amended_witness :
    (pushUndo (⟨false, 0, 0, 99, List.range 25, [7]⟩ : EditState Nat) true).undoStack
      = (List.range 25).tail ++ [99] ∧
    (pushUndo (⟨false, 0, 0, 99, List.range 25, [7]⟩ : EditState Nat) true).redoStack
      = [] :=
  ⟨(c4_pushUndo_amended _).2.2.2 (by decide), (c4_pushUndo_amended _).2.1⟩

/-- C5: on any state with at least one undo entry, `undo()` immediately
followed by `redo()` (snapshots succeeding) restores the overlay to its exact
pre-undo raster; and `undo()` (resp. `redo()`) is a no-op whenever its source
stack `undoStack` (resp. `redoStack`) is empty. -/
theorem c5_undo_redo_roundtrip {α : Type} (s : EditState α) :
    (s.undoStack ≠ [] → (redo (undo s true) true).overlay = s.overlay) ∧
    (s.undoStack = [] → ∀ ok, undo s ok = s) ∧
    (s.redoStack = [] → ∀ ok, redo s ok = s) := by
  refine ⟨?_, ?_, ?_⟩
  · intro hne
    cases hlast : s.undoStack.getLast? with
    | none => exact absurd (List.getLast?_eq_none_iff.mp hlast) hne
    | some last =>
      have h1 : undo s true =
          { s with overlay := last, undoStack := s.undoStack.dropLast,
                   redoStack := s.redoStack ++ [s.overlay] } := by
        unfold undo
        rw [hlast]
        simp
      rw [h1]
      have h2 : (s.redoStack ++ [s.overlay]).getLast? = some s.overlay :=
        List.getLast?_concat _
      unfold redo
      simp [h2]
  · intro hnil ok
    unfold undo
    rw [hnil]
    rfl
  · intro hnil ok
    unfold redo
    rw [hnil]
    rfl

/-- Witness for C5 at a concrete state with two undo entries. -/
theorem c5_undo_redo_roundtrip_witness :
    (redo (undo (⟨false, 0, 0, 3, [1, 2], [9]⟩ : EditState Nat) true) true).overlay = 3 :=
  (c5_undo_redo_roundtrip _).1 (by decide)

/-- C9, counterexample: the claim says every non-primary button code is
ignored, but the source only returns early for `e.button === 1` and
`e.button === 2`; a press with button code 4 (forward / X2, a non-primary
code) falls through, records a history entry and starts a stroke. -/
theorem c9_forward_button_starts_stroke :
    (onPointerDown (initState (0 : Nat)) 4 0 0 true 7).drawing = true ∧
    (onPointerDown (initState (0 : Nat)) 4 0 0 true 7).undoStack ≠ [] := by
  decide

/-- C9, amended: exactly the button codes 1 (middle) and 2 (secondary) are
ignored by `onPointerDown`; a press with any other code — the primary button 0
but also every code ≥ 3 — starts a stroke (`drawing := true`) and, when the
snapshot succeeds, records the pre-stroke overlay as the newest history entry
and clears the redo stack. -/
theorem c9_button_amended {α : Type} (s : EditState α) (b : Nat) (px py : ℚ) (d : α) :
    ((b = 1 ∨ b = 2) → onPointerDown s b px py true d = s) ∧
    (b ≠ 1 → b ≠ 2 →
      (onPointerDown s b px py true d).drawing = true ∧
      (onPointerDown s b px py true d).redoStack = [] ∧
      (onPointerDown s b px py true d).undoStack.getLast? = some s.overlay) := by
  constructor
  · intro h
    simp [onPointerDown, if_pos h]
  · intro h1 h2
    have hcond : ¬ (b = 1 ∨ b = 2) := by
      rintro (h | h)
      · exact h1 h
      · exact h2 h
    simp only [onPointerDown, if_neg hcond, pushUndo_true_eq]
    exact ⟨trivial, trivial, capped_concat_getLast _ _⟩

/-- Witness for C9's amended statement at button code 0 (primary). -/
theorem c9_button_amended_witness :
    (onPointerDown (initState (5 : Nat)) 0 1 2 true 7).drawing = true ∧
    (onPointerDown (initState (5 : Nat)) 0 1 2 true 7).redoStack = [] ∧
    (onPointerDown (initState (5 : Nat)) 0 1 2 true 7).undoStack.getLast? = some 5 :=
  (c9_button_amended (initState (5 : Nat)) 0 1 2 7).2 (by decide) (by decide)

/-- The overlay canvas backing store in device space: `width × height` pixels;
`alpha x y` is the RGBA alpha channel read by the scan in `breakBones` at
`imgData.data[(y * canvas.width + x) * 4 + 3]`. -/
structure Canvas where
  width : Nat
  height : Nat
  alpha : Nat → Nat → Nat

/-- Accumulator of the bounding-box scan in `breakBones`: the four bounds and
the painted-pixel count. -/
structure ScanState where
  minX : Nat
  minY : Nat
  maxX : Nat
  maxY : Nat
  count : Nat
deriving DecidableEq

/-- One iteration of the scan loop body: for a pixel with `alpha > 0`, widen
the four bounds to include its coordinates (`if (x < minX) minX = x;` and the
three symmetric updates) and increment `count`; otherwise leave the accumulator
unchanged. The seed sampling (`Math.random() > 0.95`) only feeds the external
`triggerExplode` visual effect and no pixel writes happen here, so it is not
modelled. -/
def scanPixel (c : Canvas) (st : ScanState) (p : Nat × Nat) : ScanState :=
  if 0 < c.alpha p.1 p.2 then
    { minX := min st.minX p.1, minY := min st.minY p.2,
      maxX := max st.maxX p.1, maxY := max st.maxY p.2, count := st.count + 1 }
  else st

/-- Row-major enumeration of the device-pixel grid, matching the scan's
`for (y …) for (x …)` nesting. -/
def pixelList (w h : Nat) : List (Nat × Nat) :=
  (List.range h).flatMap fun y => (List.range w).map fun x => (x, y)

/-- Initial scan accumulator: `minX = canvas.width, minY = canvas.height,
maxX = 0, maxY = 0, count = 0`. -/
def scanInit (c : Canvas) : ScanState :=
  ⟨c.width, c.height, 0, 0, 0⟩

/-- The full-region scan of `breakBones` (lines 262–291): a fold of the loop
body over the row-major pixel grid. -/
def scanOverlay (c : Canvas) : ScanState :=
  (pixelList c.width c.height).foldl (scanPixel c) (scanInit c)

lemma mem_pixelList {w h x y : Nat} :
    (x, y) ∈ pixelList w h ↔ x < w ∧ y < h := by
  simp only [pixelList, List.mem_flatMap, List.mem_map, List.mem_range, Prod.mk.injEq]
  constructor
  · rintro ⟨b, hb, a, ha, h1, h2⟩
    exact ⟨h1 ▸ ha, h2 ▸ hb⟩
  · rintro ⟨hx, hy⟩
    exact ⟨y, hy, x, hx, rfl, rfl⟩

lemma scan_mono (c : Canvas) (l : List (Nat × Nat)) (st : ScanState) :
    (l.foldl (scanPixel c) st).minX ≤ st.minX ∧
    (l.foldl (scanPixel c) st).minY ≤ st.minY ∧
    st.maxX ≤ (l.foldl (scanPixel c) st).maxX ∧
    st.maxY ≤ (l.foldl (scanPixel c) st).maxY := by
  induction l generalizing st with
  | nil => simp
  | cons p t ih =>
    simp only [List.foldl_cons]
    have h := ih (scanPixel c st p)
    have hstep :
        (scanPixel c st p).minX ≤ st.minX ∧ (scanPixel c st p).minY ≤ st.minY ∧
        st.maxX ≤ (scanPixel c st p).maxX ∧ st.maxY ≤ (scanPixel c st p).maxY := by
      unfold scanPixel
      split
      · exact ⟨Nat.min_le_left _ _, Nat.min_le_left _ _,
          Nat.le_max_left _ _, Nat.le_max_left _ _⟩
      · exact ⟨Nat.le_refl _, Nat.le_refl _, Nat.le_refl _, Nat.le_refl _⟩
    exact ⟨h.1.trans hstep.1, h.2.1.trans hstep.2.1,
      hstep.2.2.1.trans h.2.2.1, hstep.2.2.2.trans h.2.2.2⟩

lemma scan_mem (c : Canvas) (l : List (Nat × Nat)) (p : Nat × Nat)
    (ha : 0 < c.alpha p.1 p.2) :
    ∀ st : ScanState, p ∈ l →
      (l.foldl (scanPixel c) st).minX ≤ p.1 ∧ p.1 ≤ (l.foldl (scanPixel c) st).maxX ∧
      (l.foldl (scanPixel c) st).minY ≤ p.2 ∧ p.2 ≤ (l.foldl (scanPixel c) st).maxY := by
  induction l with
  | nil =>
    intro st hp
    cases hp
  | cons q t ih =>
    intro st hp
    simp only [List.foldl_cons]
    rcases List.mem_cons.mp hp with hq | ht
    · subst hq
      have hstep : (scanPixel c st p).minX ≤ p.1 ∧ p.1 ≤ (scanPixel c st p).maxX ∧
          (scanPixel c st p).minY ≤ p.2 ∧ p.2 ≤ (scanPixel c st p).maxY := by
        unfold scanPixel
        rw [if_pos ha]
        exact ⟨Nat.min_le_right _ _, Nat.le_max_right _ _,
          Nat.min_le_right _ _, Nat.le_max_right _ _⟩
      have hm := scan_mono c t (scanPixel c st p)
      exact ⟨hm.1.trans hstep.1, hstep.2.1.trans hm.2.2.1,
        hm.2.1.trans hstep.2.2.1, hstep.2.2.2.trans hm.2.2.2⟩
    · exact ih _ ht

lemma scan_keep (c : Canvas) (px py : Nat) (l : List (Nat × Nat)) :
    ∀ st : ScanState,
      (st.minX = px ∧ st.minY = py ∧ st.maxX = px ∧ st.maxY = py) →
      (∀ p ∈ l, 0 < c.alpha p.1 p.2 → p = (px, py)) →
      (l.foldl (scanPixel c) st).minX = px ∧ (l.foldl (scanPixel c) st).minY = py ∧
      (l.foldl (scanPixel c) st).maxX = px ∧ (l.foldl (scanPixel c) st).maxY = py := by
  induction l with
  | nil =>
    intro st hb _
    simpa using hb
  | cons q t ih =>
    intro st hb hl
    simp only [List.foldl_cons]
    refine ih (scanPixel c st q) ?_ (fun p hp hpa => hl p (List.mem_cons_of_mem q hp) hpa)
    unfold scanPixel
    split
    · next hqa =>
      have hq : q = (px, py) := hl q (List.mem_cons_self q t) hqa
      subst hq
      refine ⟨?_, ?_, ?_, ?_⟩ <;> simp [hb.1, hb.2.1, hb.2.2.1, hb.2.2.2]
    · exact hb

lemma scan_single (c : Canvas) (px py : Nat) (l : List (Nat × Nat)) :
    ∀ st : ScanState,
      (∀ p ∈ l, 0 < c.alpha p.1 p.2 → p = (px, py)) →
      (px, py) ∈ l → 0 < c.alpha px py →
      px ≤ st.minX → st.maxX ≤ px → py ≤ st.minY → st.maxY ≤ py →
      ((l.foldl (scanPixel c) st).minX = px ∧ (l.foldl (scanPixel c) st).minY = py ∧
       (l.foldl (scanPixel c) st).maxX = px ∧ (l.foldl (scanPixel c) st).maxY = py) := by
  induction l with
  | nil =>
    intro st _ hmem _ _ _ _ _
    cases hmem
  | cons q t ih =>
    intro st hl hmem hpa h1 h2 h3 h4
    simp only [List.foldl_cons]
    by_cases hqa : 0 < c.alpha q.1 q.2
    · have hq : q = (px, py) := hl q (List.mem_cons_self q t) hqa
      subst hq
      refine scan_keep c px py t (scanPixel c st (px, py)) ?_
        (fun p hp hpa2 => hl p (List.mem_cons_of_mem _ hp) hpa2)
      unfold scanPixel
      rw [if_pos hqa]
      exact ⟨Nat.min_eq_right h1, Nat.min_eq_right h3,
        Nat.max_eq_right h2, Nat.max_eq_right h4⟩
    · have hst : scanPixel c st q = st := by
        unfold scanPixel
        rw [if_neg hqa]
      rw [hst]
      have hmem' : (px, py) ∈ t := by
        rcases List.mem_cons.mp hmem with hq | ht
        · exact absurd (hq ▸ hpa) hqa
        · exact ht
      exact ih st (fun p hp hpa2 => hl p (List.mem_cons_of_mem _ hp) hpa2)
        hmem' hpa h1 h2 h3 h4

/-- C8: the region extractor's bounding box includes every painted pixel — for
any overlay, each in-range pixel with `alpha > 0` lies within the four returned
bounds — and on an overlay whose only painted pixel is `(px, py)` the scan
returns exactly `(minX, minY, maxX, maxY) = (px, py, px, py)`. -/
theorem c8_region_extractor (c : Canvas) :
    (∀ x y, x < c.width → y < c.height → 0 < c.alpha x y →
      (scanOverlay c).minX ≤ x ∧ x ≤ (scanOverlay c).maxX ∧
      (scanOverlay c).minY ≤ y ∧ y ≤ (scanOverlay c).maxY) ∧
    (∀ px py, px < c.width → py < c.height →
      (∀ x, x < c.width → ∀ y, y < c.height → (0 < c.alpha x y ↔ x = px ∧ y = py)) →
      (scanOverlay c).minX = px ∧ (scanOverlay c).minY = py ∧
      (scanOverlay c).maxX = px ∧ (scanOverlay c).maxY = py) := by
  constructor
  · intro x y hx hy ha
    exact scan_mem c _ (x, y) ha (scanInit c) (mem_pixelList.mpr ⟨hx, hy⟩)
  · intro px py hpx hpy hiff
    refine scan_single c px py _ (scanInit c) ?_ (mem_pixelList.mpr ⟨hpx, hpy⟩)
      ((hiff px hpx py hpy).mpr ⟨rfl, rfl⟩)
      (Nat.le_of_lt hpx) (Nat.zero_le _) (Nat.le_of_lt hpy) (Nat.zero_le _)
    intro p hp hpa
    have hrange := mem_pixelList.mp (show (p.1, p.2) ∈ pixelList c.width c.height by
      simpa using hp)
    have := (hiff p.1 hrange.1 p.2 hrange.2).mp hpa
    exact Prod.ext this.1 this.2

/-- A 3×3 overlay whose only painted pixel (alpha 255) sits at `(1, 2)`. -/
def singlePixelCanvas : Canvas :=
  ⟨3, 3, fun x y => if x = 1 ∧ y = 2 then 255 else 0⟩

/-- Witness for C8: on `singlePixelCanvas` the scan returns the degenerate
box `(1, 2, 1, 2)`. -/
theorem c8_region_extractor_witness :
    (scanOverlay singlePixelCanvas).minX = 1 ∧ (scanOverlay singlePixelCanvas).minY = 2 ∧
    (scanOverlay singlePixelCanvas).maxX = 1 ∧ (scanOverlay singlePixelCanvas).maxY = 2 :=
  (c8_region_extractor singlePixelCanvas).2 1 2 (by decide) (by decide) (by decide)

/-- Does the character list `l` start with the pattern `n`? (Helper for the JS
`String.prototype.includes` check used to pick the submission mode.) -/
def leadsWith : List Char → List Char → Bool
  | _, [] => true
  | [], _ :: _ => false
  | a :: as, b :: bs => a == b && leadsWith as bs

/-- Does the pattern `n` occur contiguously anywhere in `l`? Implements the JS
substring containment test of `String.prototype.includes`. -/
def listContains : List Char → List Char → Bool
  | [], n => n.isEmpty
  | a :: t, n => leadsWith (a :: t) n || listContains t n

/-- `imageSrc.includes(PUBLIC_BACKEND_URL)` from the source: substring
containment of `n` in `h`. -/
def jsIncludes (h n : String) : Bool :=
  listContains h.data n.data

lemma leadsWith_iff (n : List Char) :
    ∀ l : List Char, leadsWith l n = true ↔ ∃ t, l = n ++ t := by
  induction n with
  | nil =>
    intro l
    simp [leadsWith]
  | cons b bs ih =>
    intro l
    cases l with
    | nil => simp [leadsWith]
    | cons a as =>
      simp only [leadsWith, Bool.and_eq_true, beq_iff_eq, ih as, List.cons_append,
        List.cons.injEq]
      constructor
      · rintro ⟨h1, t, h2⟩
        exact ⟨t, h1, h2⟩
      · rintro ⟨t, h1, h2⟩
        exact ⟨h1, t, h2⟩

lemma listContains_iff (n : List Char) :
    ∀ l : List Char, listContains l n = true ↔ ∃ p t, l = p ++ n ++ t := by
  intro l
  induction l with
  | nil =>
    simp only [listContains, List.isEmpty_iff]
    constructor
    · intro h
      exact ⟨[], [], by simp [h]⟩
    · rintro ⟨p, t, h⟩
      rcases List.append_eq_nil.mp (List.append_eq_nil.mp h.symm).1 with ⟨-, hn⟩
      exact hn
  | cons a as ih =>
    simp only [listContains, Bool.or_eq_true, leadsWith_iff, ih]
    constructor
    · rintro (⟨t, h⟩ | ⟨p, t, h⟩)
      · exact ⟨[], t, by simp [h]⟩
      · exact ⟨a :: p, t, by simp [h]⟩
    · rintro ⟨p, t, h⟩
      cases p with
      | nil =>
        exact Or.inl ⟨t, by simpa using h⟩
      | cons x xs =>
        right
        refine ⟨xs, t, ?_⟩
        have := List.cons.injEq a as x (xs ++ n ++ t) ▸ h
        simpa using (List.cons.inj (by simpa using h)).2

/-- Auxiliary loop of the JS `split` on a separator character: accumulates the
current segment (in reverse) and emits it at each separator or at the end. -/
def splitSegs (sep : Char) : List Char → List Char → List (List Char)
  | [], acc => [acc.reverse]
  | c :: t, acc =>
    if c = sep then acc.reverse :: splitSegs sep t [] else splitSegs sep t (c :: acc)

/-- `imageSrc.split('/')` from the source (JS `String.prototype.split` with a
single-character separator). -/
def jsSplit (s : String) (sep : Char) : List String :=
  (splitSegs sep s.data []).map List.asString

/-- Truncation toward zero of a rational, as in the first step of the
ECMAScript `ToUint32` conversion applied to a canvas dimension. -/
def jsTrunc (q : ℚ) : Int :=
  if 0 ≤ q then ⌊q⌋ else ⌈q⌉

/-- ECMAScript `ToUint32`, applied by the browser when a JS number is assigned
to the `width`/`height` IDL attributes of a canvas: truncate toward zero, then
reduce modulo 2^32 into `[0, 2^32)`. -/
def jsToUint32 (q : ℚ) : Nat :=
  ((jsTrunc q) % (2 ^ 32 : Int)).toNat

/-- JS `Math.round`: nearest integer, ties toward positive infinity. -/
def jsRound (q : ℚ) : Int :=
  ⌊q + 1 / 2⌋

/-- The two submission endpoints: `/apply_fracture` (direct) and
`/apply_fracture_queue` (queued). -/
inductive Endpoint where
  | direct
  | queued
deriving DecidableEq

/-- The crop canvas built by `breakBones` (lines 310–324): its dimensions as
assigned (after `ToUint32` coercion of the display-space differences), and the
arguments of the 9-argument `drawImage` call — source rectangle and destination
size, both converted back to device space. The copy is 1:1 (`srcW = destW`,
`srcH = destH`), and pixels of the destination rectangle falling outside the
canvas (`canvasW × canvasH`) are clipped by the rasteriser. -/
structure Crop where
  canvasW : Nat
  canvasH : Nat
  srcX : ℚ
  srcY : ℚ
  srcW : ℚ
  srcH : ℚ
  destW : ℚ
  destH : ℚ
deriving DecidableEq

/-- A multipart field value: a plain string, a stringified integer, or a blob
(the full source image fetched from `imageSrc`, or the encoded crop canvas). -/
inductive BlobVal where
  | image
  | overlay (c : Crop)
deriving DecidableEq

inductive FieldVal where
  | str (s : String)
  | int (i : Int)
  | blob (b : BlobVal)
deriving DecidableEq

/-- The one network request `breakBones` issues: target endpoint and multipart
fields in append order. -/
structure Request where
  endpoint : Endpoint
  fields : List (String × FieldVal)
deriving DecidableEq

/-- Outcome of the submission's `fetch`: a transport error (the promise
rejects), a response with a non-success status (`res.ok` false), or success. -/
inductive NetResp where
  | transportError
  | badStatus
  | ok
deriving DecidableEq

/-- The component state read and written by `breakBones`: the image source
`imageSrc` (prop) and the displayed `src` state variable, the overlay canvas
with its device-pixel data, the CSS-space bounding rectangle
(`canvas.getBoundingClientRect()`), the image's native resolution
(`imgEl.naturalWidth/Height`), and the two history stacks. -/
structure PaintState where
  imageSrc : String
  src : String
  canvas : Canvas
  rectW : ℚ
  rectH : ℚ
  naturalW : ℚ
  naturalH : ℚ
  undoStack : List Canvas
  redoStack : List Canvas

/-- The environment of one `breakBones` run: the configured
`PUBLIC_BACKEND_URL`, the network outcome, `new Date().getTime()` rendered as
a string, and the object URL created for a direct-mode response blob. The
initial `fetch(imageSrc)` retrieving the image bytes for the `image_file`
field is not a request to either submission endpoint and is modelled as
succeeding (its blob is the abstract `BlobVal.image`). -/
structure Env where
  backendUrl : String
  resp : NetResp
  time : String
  blobUrl : String

/-- Display-space left edge of the bounding box:
`minX * rect.width / canvas.width` (line 303). -/
def dispMinX (st : PaintState) : ℚ :=
  ((scanOverlay st.canvas).minX : ℚ) * st.rectW / (st.canvas.width : ℚ)

/-- Display-space top edge of the bounding box (line 304). -/
def dispMinY (st : PaintState) : ℚ :=
  ((scanOverlay st.canvas).minY : ℚ) * st.rectH / (st.canvas.height : ℚ)

/-- Display-space right edge of the bounding box (line 305). -/
def dispMaxX (st : PaintState) : ℚ :=
  ((scanOverlay st.canvas).maxX : ℚ) * st.rectW / (st.canvas.width : ℚ)

/-- Display-space bottom edge of the bounding box (line 306). -/
def dispMaxY (st : PaintState) : ℚ :=
  ((scanOverlay st.canvas).maxY : ℚ) * st.rectH / (st.canvas.height : ℚ)

/-- `croppedCanvas.width = maxX - minX` (line 311): the display-space width
difference, coerced by `ToUint32`. -/
def cropW (st : PaintState) : Nat :=
  jsToUint32 (dispMaxX st - dispMinX st)

/-- `croppedCanvas.height = maxY - minY` (line 312). -/
def cropH (st : PaintState) : Nat :=
  jsToUint32 (dispMaxY st - dispMinY st)

/-- Modelled browser behaviour of the crop/encode step: producing the
`overlay_file` blob fails — aborting `breakBones` with an uncaught rejection
before any endpoint request — when the crop canvas has a zero dimension
(`toBlob` then invokes its callback with `null`, rejecting the wrapper
promise) or a dimension beyond any implementation's maximum canvas size
(every engine's limit is far below `2^31`; the backing store cannot be
allocated, so the 2D context/`toBlob` fails). A degenerate bounding box makes
`maxX - minX` negative, which `ToUint32` wraps to at least `2^32 - 2^31`. -/
def encodeFailsP (st : PaintState) : Prop :=
  cropW st = 0 ∨ cropH st = 0 ∨ 2 ^ 31 ≤ cropW st ∨ 2 ^ 31 ≤ cropH st

instance (st : PaintState) : Decidable (encodeFailsP st) := by
  unfold encodeFailsP
  infer_instance

/-- The crop built by the `drawImage` call (lines 314–324): source rectangle
`(minX, minY, maxX - minX, maxY - minY)` scaled back to device space by
`canvas.width / rect.width` (resp. height), destination at `(0, 0)` with the
same device-space size. -/
def theCrop (st : PaintState) : Crop :=
  { canvasW := cropW st
    canvasH := cropH st
    srcX := dispMinX st * ((st.canvas.width : ℚ) / st.rectW)
    srcY := dispMinY st * ((st.canvas.height : ℚ) / st.rectH)
    srcW := (dispMaxX st - dispMinX st) * ((st.canvas.width : ℚ) / st.rectW)
    srcH := (dispMaxY st - dispMinY st) * ((st.canvas.height : ℚ) / st.rectH)
    destW := (dispMaxX st - dispMinX st) * ((st.canvas.width : ℚ) / st.rectW)
    destH := (dispMaxY st - dispMinY st) * ((st.canvas.height : ℚ) / st.rectH) }

/-- `x` field: `Math.round(minX * (imgEl.naturalWidth / rect.width))`
(line 342) — the display-space left edge converted to source space. -/
def payloadX (st : PaintState) : Int :=
  jsRound (dispMinX st * (st.naturalW / st.rectW))

/-- `y` field: `Math.round(minY * (imgEl.naturalHeight / rect.height))`
(line 343). -/
def payloadY (st : PaintState) : Int :=
  jsRound (dispMinY st * (st.naturalH / st.rectH))

/-- The `FormData` as assembled before the mode branch, in append order:
`image_file` (line 254), `scale`, `noise` (255–256), `overlay_file`
(line 340), `x`, `y` (342–343). -/
def basePayload (st : PaintState) : List (String × FieldVal) :=
  [("image_file", FieldVal.blob BlobVal.image),
   ("scale", FieldVal.str "1.0"),
   ("noise", FieldVal.str "10"),
   ("overlay_file", FieldVal.blob (BlobVal.overlay (theCrop st))),
   ("x", FieldVal.int (payloadX st)),
   ("y", FieldVal.int (payloadY st))]

/-- The queued-mode `FormData` (lines 347–351): append `choice` (the last
`/`-separated segment of `imageSrc`, by the first `pop()`) and `job_id` (the
second-to-last segment, by the second `pop()`), then `delete('image_file')`,
which removes every entry under that name. -/
def queuedPayload (st : PaintState) : List (String × FieldVal) :=
  (basePayload st ++
      [("choice", FieldVal.str ((jsSplit st.imageSrc '/').getLast?.getD "undefined")),
       ("job_id",
        FieldVal.str ((jsSplit st.imageSrc '/').dropLast.getLast?.getD "undefined"))]).filter
    (fun p => p.1 != "image_file")

/-- Modelled effect on the overlay of the bounding-box feedback stroke
(lines 301–308): `ctx.rect(minX, minY, maxX-minX, maxY-minY)` stroked with the
opaque pen `#0ff` at `lineWidth 2`. The stroke covers the device pixel at the
box's top-left corner (when that corner is inside the canvas), setting its
alpha to full; the other pixels the rasteriser touches along the rectangle
outline are conservatively not tracked. The external `triggerExplode` effect
(an excluded collaborator) also draws on and partially erases this canvas and
is not modelled. -/
def strokeCorner (c : Canvas) (bx bY : Nat) : Canvas :=
  { c with alpha := fun x y =>
      if x = bx ∧ y = bY ∧ bx < c.width ∧ bY < c.height then 255 else c.alpha x y }

/-- `ctx.clearRect(0, 0, canvas.width, canvas.height)` after a direct-mode
success (line 380): a fully transparent overlay. -/
def clearAll (c : Canvas) : Canvas :=
  { c with alpha := fun _ _ => 0 }

/-- The overlay canvas after the feedback rendering of `breakBones`, which
happens before the crop and unconditionally on the path to the network call. -/
def feedbackCanvas (st : PaintState) : Canvas :=
  strokeCorner st.canvas (scanOverlay st.canvas).minX (scanOverlay st.canvas).minY

/-- `breakBones()` (lines 252–384), as one atomic run: scan the overlay, draw
the bounding-box feedback, crop and encode the overlay (aborting with no
endpoint request when the encode fails, cf. `encodeFailsP`), pick the endpoint
by `imageSrc.includes(PUBLIC_BACKEND_URL)`, assemble the mode's payload, issue
the one request and apply the response: queued success appends the
cache-busting `'?t=' + getTime()` suffix to `src`; direct success replaces
`imageSrc` by the response's object URL, empties both history stacks and
clears the overlay; any failure leaves the state as it was after the feedback
rendering. Returns the issued request (if any) and the final state. -/
def breakBones (st : PaintState) (env : Env) : Option Request × PaintState :=
  let st1 : PaintState := { st with canvas := feedbackCanvas st }
  if encodeFailsP st then (none, st1)
  else if jsIncludes st.imageSrc env.backendUrl then
    let r : Request := ⟨Endpoint.queued, queuedPayload st⟩
    match env.resp with
    | NetResp.ok => (some r, { st1 with src := st.src ++ "?t=" ++ env.time })
    | _ => (some r, st1)
  else
    let r : Request := ⟨Endpoint.direct, basePayload st⟩
    match env.resp with
    | NetResp.ok =>
      (some r, { st1 with imageSrc := env.blobUrl, undoStack := [], redoStack := [],
                          canvas := clearAll st1.canvas })
    | _ => (some r, st1)

lemma scan_unpainted (c : Canvas) (l : List (Nat × Nat)) :
    (∀ p ∈ l, c.alpha p.1 p.2 = 0) → ∀ st, l.foldl (scanPixel c) st = st := by
  induction l with
  | nil =>
    intro _ st
    rfl
  | cons q t ih =>
    intro hl st
    simp only [List.foldl_cons]
    have hq : scanPixel c st q = st := by
      unfold scanPixel
      rw [if_neg]
      rw [hl q (List.mem_cons_self q t)]
      exact Nat.lt_irrefl 0
    rw [hq]
    exact ih (fun p hp => hl p (List.mem_cons_of_mem q hp)) st

lemma breakBones_req_fail (st : PaintState) (env : Env) (hf : encodeFailsP st) :
    (breakBones st env).1 = none := by
  simp only [breakBones]
  rw [if_pos hf]

lemma breakBones_req_queued (st : PaintState) (env : Env) (hf : ¬ encodeFailsP st)
    (hq : jsIncludes st.imageSrc env.backendUrl = true) :
    (breakBones st env).1 = some ⟨Endpoint.queued, queuedPayload st⟩ := by
  simp only [breakBones]
  rw [if_neg hf, if_pos hq]
  cases env.resp <;> rfl

lemma breakBones_req_direct (st : PaintState) (env : Env) (hf : ¬ encodeFailsP st)
    (hq : jsIncludes st.imageSrc env.backendUrl = false) :
    (breakBones st env).1 = some ⟨Endpoint.direct, basePayload st⟩ := by
  simp only [breakBones]
  rw [if_neg hf, if_neg (by rw [hq]; exact Bool.false_ne_true)]
  cases env.resp <;> rfl

lemma breakBones_state_noFail (st : PaintState) (env : Env) (hf : ¬ encodeFailsP st)
    (hr : env.resp ≠ NetResp.ok) :
    (breakBones st env).2 = { st with canvas := feedbackCanvas st } := by
  simp only [breakBones]
  rw [if_neg hf]
  cases henv : env.resp with
  | ok => exact absurd henv hr
  | transportError => split <;> rfl
  | badStatus => split <;> rfl

lemma breakBones_state_queued_ok (st : PaintState) (env : Env) (hf : ¬ encodeFailsP st)
    (hq : jsIncludes st.imageSrc env.backendUrl = true) (hr : env.resp = NetResp.ok) :
    (breakBones st env).2 =
      { st with canvas := feedbackCanvas st, src := st.src ++ "?t=" ++ env.time } := by
  simp only [breakBones]
  rw [if_neg hf, if_pos hq, hr]

/-- C1: on an overlay with no pixel of non-zero alpha, `breakBones` aborts
locally with no request to either submission endpoint: the scan leaves the
degenerate initial box `(width, height, 0, 0)`, the display-space width
difference `maxX - minX` is `-rect.width`, and the crop canvas dimension this
yields (zero, or the huge `ToUint32` wrap-around of a negative number) makes
the encode step fail before the `fetch` to `/apply_fracture` or
`/apply_fracture_queue` is ever reached. The side conditions say the display
rectangle has positive width of any realistic magnitude (below `2^31` CSS
pixels). -/
theorem c1_empty_overlay_aborts (st : PaintState) (env : Env)
    (hempty : ∀ x, x < st.canvas.width → ∀ y, y < st.canvas.height →
      st.canvas.alpha x y = 0)
    (hrw : 0 < st.rectW) (hrw2 : st.rectW ≤ 2 ^ 31) :
    (breakBones st env).1 = none := by
  have hscan : scanOverlay st.canvas = scanInit st.canvas := by
    refine scan_unpainted st.canvas _ ?_ (scanInit st.canvas)
    intro p hp
    have hrange := mem_pixelList.mp
      (show (p.1, p.2) ∈ pixelList st.canvas.width st.canvas.height by simpa using hp)
    exact hempty p.1 hrange.1 p.2 hrange.2
  have hmaxX : ((scanOverlay st.canvas).maxX : ℚ) = 0 := by
    rw [hscan]
    simp [scanInit]
  have hminX : ((scanOverlay st.canvas).minX : ℚ) = (st.canvas.width : ℚ) := by
    rw [hscan]
    rfl
  have hdiff : dispMaxX st - dispMinX st =
      -((st.canvas.width : ℚ) * st.rectW / (st.canvas.width : ℚ)) := by
    unfold dispMaxX dispMinX
    rw [hmaxX, hminX]
    simp
  have hfail : encodeFailsP st := by
    by_cases hw : st.canvas.width = 0
    · have hzero : dispMaxX st - dispMinX st = 0 := by
        rw [hdiff, hw]
        simp
      have hcw : cropW st = 0 := by
        unfold cropW
        rw [hzero]
        unfold jsToUint32 jsTrunc
        norm_num
      exact Or.inl hcw
    · have hwne : (st.canvas.width : ℚ) ≠ 0 := Nat.cast_ne_zero.mpr hw
      have hneg : dispMaxX st - dispMinX st = -st.rectW := by
        rw [hdiff, mul_div_cancel_left₀ _ hwne]
      have hk0 : 0 ≤ ⌊st.rectW⌋ := Int.floor_nonneg.mpr hrw.le
      have hk31 : ⌊st.rectW⌋ ≤ 2 ^ 31 := by
        have h1 : ⌊st.rectW⌋ ≤ ⌊(2 ^ 31 : ℚ)⌋ := Int.floor_le_floor hrw2
        have h2 : ⌊(2 ^ 31 : ℚ)⌋ = (2 ^ 31 : ℤ) := by
          rw [show ((2 : ℚ) ^ 31) = (((2 ^ 31 : ℤ) : ℚ)) by push_cast; ring]
          exact Int.floor_intCast _
        rw [h2] at h1
        exact h1
      have hcw : cropW st = ((-⌊st.rectW⌋) % (2 ^ 32 : Int)).toNat := by
        unfold cropW
        rw [hneg]
        unfold jsToUint32
        congr 1
        unfold jsTrunc
        rw [if_neg (not_le.mpr (neg_neg_of_pos hrw))]
        rw [Int.ceil_neg]
      rcases eq_or_lt_of_le hk0 with hk00 | hkpos
      · refine Or.inl ?_
        rw [hcw, ← hk00]
        norm_num
      · refine Or.inr (Or.inr (Or.inl ?_))
        rw [hcw]
        omega
  exact breakBones_req_fail st env hfail

/-- A 2×2 overlay with every pixel fully transparent. -/
def emptyCanvas : Canvas :=
  ⟨2, 2, fun _ _ => 0⟩

/-- State for the C1 witness: empty overlay, 2×2 CSS rectangle. -/
def c1state : PaintState :=
  ⟨"capture.png", "capture.png", emptyCanvas, 2, 2, 4, 4, [], []⟩

def c1env : Env :=
  ⟨"http://backend", NetResp.ok, "1700000000000", "blob:a"⟩

/-- Witness for C1 at a concrete empty overlay. -/
theorem c1_empty_overlay_aborts_witness :
    (breakBones c1state c1env).1 = none :=
  c1_empty_overlay_aborts c1state c1env (by decide) (by decide) (by decide)

/-- A 4×4 device-pixel overlay painted at `(0, 0)` and `(3, 3)`. -/
def c2canvas : Canvas :=
  ⟨4, 4, fun x y => if (x = 0 ∧ y = 0) ∨ (x = 3 ∧ y = 3) then 255 else 0⟩

/-- State for C2: the same overlay displayed in a 2×2 CSS rectangle, i.e. a
device pixel ratio of 2. -/
def c2state : PaintState :=
  ⟨"capture.png", "capture.png", c2canvas, 2, 2, 8, 8, [], []⟩

def c2env : Env :=
  ⟨"http://backend", NetResp.badStatus, "1700000000000", "blob:a"⟩

/-- C2, evaluation at the failing input (`dpr = 2`): the device-space bounding
box spans `maxX - minX = 3` device pixels, but the crop canvas attached as
`overlay_file` is created with `canvasW = 1` — the display-space difference,
not the device-space one — while `drawImage` is asked to copy a
device-space-sized destination rectangle of width 3 onto it, so the region's
right/bottom device pixels are clipped away rather than contained. -/
theorem c2_crop_clipped_eval :
    (scanOverlay c2canvas).maxX - (scanOverlay c2canvas).minX = 3 ∧
    (theCrop c2state).canvasW = 1 ∧
    (theCrop c2state).destW = 3 ∧
    (theCrop c2state).canvasW < 3 ∧
    List.lookup "overlay_file" (((breakBones c2state c2env).1.getD
        ⟨Endpoint.direct, []⟩).fields)
      = some (FieldVal.blob (BlobVal.overlay (theCrop c2state))) := by
  with_unfolding_all decide

lemma queuedPayload_eq (st : PaintState) :
    queuedPayload st =
      [("scale", FieldVal.str "1.0"), ("noise", FieldVal.str "10"),
       ("overlay_file", FieldVal.blob (BlobVal.overlay (theCrop st))),
       ("x", FieldVal.int (payloadX st)), ("y", FieldVal.int (payloadY st)),
       ("choice", FieldVal.str ((jsSplit st.imageSrc '/').getLast?.getD "undefined")),
       ("job_id",
        FieldVal.str ((jsSplit st.imageSrc '/').dropLast.getLast?.getD "undefined"))] := by
  with_unfolding_all rfl

/-- A 2×2 overlay painted on its diagonal. -/
def diagCanvas : Canvas :=
  ⟨2, 2, fun x y => if x = y then 255 else 0⟩

/-- State whose `imageSrc` comes from the backend's result store
(`job_id = 7`, `choice = 1`), edited at `dpr = 1`. -/
def c6state : PaintState :=
  ⟨"http://backend/x/7/1", "http://backend/x/7/1", diagCanvas, 2, 2, 2, 2, [], []⟩

def c6env : Env :=
  ⟨"http://backend", NetResp.badStatus, "1700000000000", "blob:a"⟩

/-- C6, counterexample: in queued mode the payload keeps `overlay_file`
alongside `job_id` and `choice` (only `image_file` is deleted), so the claimed
field sets `{image_file, overlay_file}` and `{job_id, choice}` are not mutually
exclusive — this concrete queued submission carries both `overlay_file` and
`job_id`. -/
theorem c6_queued_retains_overlay_file :
    ((breakBones c6state c6env).1.getD ⟨Endpoint.direct, []⟩).fields.map Prod.fst
      = ["scale", "noise", "overlay_file", "x", "y", "choice", "job_id"] := by
  with_unfolding_all decide

/-- C6, amended: every issued payload carries `scale = "1.0"`, `noise = "10"`,
and `x`, `y` equal to the bounding box's display-space top-left converted to
source space and rounded to integers; the direct-mode payload consists of
exactly `image_file, scale, noise, overlay_file, x, y`, while the queued-mode
payload consists of exactly `scale, noise, overlay_file, x, y, choice, job_id`
— it removes `image_file` but retains `overlay_file`, with `choice` the last
and `job_id` the second-to-last `/`-separated segment of the image source, so
the mutually exclusive field sets are `{image_file}` versus
`{job_id, choice}`. -/
theorem c6_payload_amended (st : PaintState) (env : Env) (r : Request)
    (h : (breakBones st env).1 = some r) :
    List.lookup "scale" r.fields = some (FieldVal.str "1.0") ∧
    List.lookup "noise" r.fields = some (FieldVal.str "10") ∧
    List.lookup "x" r.fields = some (FieldVal.int (payloadX st)) ∧
    List.lookup "y" r.fields = some (FieldVal.int (payloadY st)) ∧
    (r.endpoint = Endpoint.direct →
      r.fields.map Prod.fst = ["image_file", "scale", "noise", "overlay_file", "x", "y"]) ∧
    (r.endpoint = Endpoint.queued →
      r.fields.map Prod.fst
          = ["scale", "noise", "overlay_file", "x", "y", "choice", "job_id"] ∧
      List.lookup "choice" r.fields
          = some (FieldVal.str ((jsSplit st.imageSrc '/').getLast?.getD "undefined")) ∧
      List.lookup "job_id" r.fields
          = some (FieldVal.str
              ((jsSplit st.imageSrc '/').dropLast.getLast?.getD "undefined"))) := by
  by_cases hf : encodeFailsP st
  · rw [breakBones_req_fail st env hf] at h
    exact absurd h (by simp)
  · cases hq : jsIncludes st.imageSrc env.backendUrl with
    | true =>
      rw [breakBones_req_queued st env hf hq] at h
      have hr := Option.some.inj h
      subst hr
      refine ⟨?_, ?_, ?_, ?_, ?_, ?_⟩
      · rw [show (⟨Endpoint.queued, queuedPayload st⟩ : Request).fields
            = queuedPayload st from rfl, queuedPayload_eq st]
        with_unfolding_all rfl
      · rw [show (⟨Endpoint.queued, queuedPayload st⟩ : Request).fields
            = queuedPayload st from rfl, queuedPayload_eq st]
        with_unfolding_all rfl
      · rw [show (⟨Endpoint.queued, queuedPayload st⟩ : Request).fields
            = queuedPayload st from rfl, queuedPayload_eq st]
        with_unfolding_all rfl
      · rw [show (⟨Endpoint.queued, queuedPayload st⟩ : Request).fields
            = queuedPayload st from rfl, queuedPayload_eq st]
        with_unfolding_all rfl
      · intro hd
        simp at hd
      · intro _
        refine ⟨?_, ?_, ?_⟩ <;>
          rw [show (⟨Endpoint.queued, queuedPayload st⟩ : Request).fields
              = queuedPayload st from rfl, queuedPayload_eq st] <;>
          with_unfolding_all rfl
    | false =>
      rw [breakBones_req_direct st env hf hq] at h
      have hr := Option.some.inj h
      subst hr
      refine ⟨?_, ?_, ?_, ?_, ?_, ?_⟩
      · with_unfolding_all rfl
      · with_unfolding_all rfl
      · with_unfolding_all rfl
      · with_unfolding_all rfl
      · intro _
        with_unfolding_all rfl
      · intro hqd
        simp at hqd

def c6direnv : Env :=
  ⟨"http://other", NetResp.badStatus, "1700000000000", "blob:a"⟩

def c6req : Request :=
  ((breakBones c6state c6direnv).1).getD ⟨Endpoint.direct, []⟩

/-- Witness for C6's amended statement at a concrete direct-mode submission. -/
theorem c6_payload_amended_witness :
    List.lookup "scale" c6req.fields = some (FieldVal.str "1.0") ∧
    c6req.fields.map Prod.fst = ["image_file", "scale", "noise", "overlay_file", "x", "y"] := by
  have h : (breakBones c6state c6direnv).1 = some c6req := by with_unfolding_all rfl
  have hc := c6_payload_amended c6state c6direnv c6req h
  exact ⟨hc.1, hc.2.2.2.2.1 (by with_unfolding_all rfl)⟩

/-- A 4×4 overlay painted at `(0, 3)` and `(3, 0)` only: the bounding box is
`(0, 0)–(3, 3)` and its top-left corner pixel is transparent. -/
def c7canvas : Canvas :=
  ⟨4, 4, fun x y => if (x = 0 ∧ y = 3) ∨ (x = 3 ∧ y = 0) then 255 else 0⟩

def c7state : PaintState :=
  ⟨"capture.png", "capture.png", c7canvas, 4, 4, 4, 4, [], []⟩

def c7env : Env :=
  ⟨"http://backend", NetResp.transportError, "1700000000000", "blob:a"⟩

/-- C7, counterexample: the overlay buffer is not unchanged across a failed
submission. Before the network call, `breakBones` strokes the cyan bounding-box
feedback rectangle onto the overlay canvas (lines 301–308); on this overlay the
box's corner device pixel `(0, 0)` was transparent before the submission and is
painted afterwards, even though the request failed with a transport error. -/
theorem c7_overlay_mutated_on_failure :
    (breakBones c7state c7env).2.canvas.alpha 0 0 ≠ c7state.canvas.alpha 0 0 := by
  with_unfolding_all decide

/-- C7, amended: for every submission that issues a request, a failure
(transport error or non-success status) leaves the history stacks, the
displayed identifier `src` and the image source unchanged, and the overlay
unchanged except for the bounding-box feedback stroke drawn before the network
call; a queued-mode success additionally changes only `src`, by appending the
cache-busting `?t=` suffix, with stacks and image source untouched and the
overlay again carrying just the feedback stroke. -/
theorem c7_state_amended (st : PaintState) (env : Env) (r : Request)
    (h : (breakBones st env).1 = some r) :
    (env.resp ≠ NetResp.ok →
      (breakBones st env).2.undoStack = st.undoStack ∧
      (breakBones st env).2.redoStack = st.redoStack ∧
      (breakBones st env).2.src = st.src ∧
      (breakBones st env).2.imageSrc = st.imageSrc ∧
      (breakBones st env).2.canvas = feedbackCanvas st) ∧
    (env.resp = NetResp.ok → r.endpoint = Endpoint.queued →
      (breakBones st env).2.undoStack = st.undoStack ∧
      (breakBones st env).2.redoStack = st.redoStack ∧
      (breakBones st env).2.imageSrc = st.imageSrc ∧
      (breakBones st env).2.canvas = feedbackCanvas st ∧
      (breakBones st env).2.src = st.src ++ "?t=" ++ env.time) := by
  by_cases hf : encodeFailsP st
  · rw [breakBones_req_fail st env hf] at h
    exact absurd h (by simp)
  · constructor
    · intro hr
      rw [breakBones_state_noFail st env hf hr]
      exact ⟨rfl, rfl, rfl, rfl, rfl⟩
    · intro hr hqd
      cases hq : jsIncludes st.imageSrc env.backendUrl with
      | false =>
        rw [breakBones_req_direct st env hf hq] at h
        have hreq := Option.some.inj h
        rw [← hreq] at hqd
        simp at hqd
      | true =>
        rw [breakBones_state_queued_ok st env hf hq hr]
        exact ⟨rfl, rfl, rfl, rfl, rfl⟩

/-- A queued-mode submission state for the C7 witness. -/
def c7qstate : PaintState :=
  ⟨"http://backend/x/7/1", "http://backend/x/7/1", diagCanvas, 2, 2, 2, 2,
   [diagCanvas], []⟩

def c7qenv : Env :=
  ⟨"http://backend", NetResp.ok, "1700000000001", "blob:b"⟩

def c7qreq : Request :=
  ((breakBones c7qstate c7qenv).1).getD ⟨Endpoint.direct, []⟩

/-- Witness for C7's amended statement at a successful queued-mode
submission. -/
theorem c7_state_amended_witness :
    (breakBones c7qstate c7qenv).2.undoStack = c7qstate.undoStack ∧
    (breakBones c7qstate c7qenv).2.src = c7qstate.src ++ "?t=" ++ c7qenv.time := by
  have h : (breakBones c7qstate c7qenv).1 = some c7qreq := by with_unfolding_all rfl
  have hc := (c7_state_amended c7qstate c7qenv c7qreq h).2 rfl (by with_unfolding_all rfl)
  exact ⟨hc.1, hc.2.2.2.2⟩

/-- C10: the submission mode is selected by substring containment — a run
that issues a request targets the queued endpoint exactly when the backend
base URL occurs contiguously anywhere inside the image source string (also
mid-path or inside a query component), and the direct endpoint otherwise. -/
theorem c10_mode_substring (st : PaintState) (env : Env) (r : Request)
    (h : (breakBones st env).1 = some r) :
    (r.endpoint = Endpoint.queued ↔
      ∃ p t, st.imageSrc.data = p ++ env.backendUrl.data ++ t) := by
  by_cases hf : encodeFailsP st
  · rw [breakBones_req_fail st env hf] at h
    exact absurd h (by simp)
  · cases hq : jsIncludes st.imageSrc env.backendUrl with
    | true =>
      rw [breakBones_req_queued st env hf hq] at h
      have hr := Option.some.inj h
      subst hr
      constructor
      · intro _
        exact (listContains_iff env.backendUrl.data st.imageSrc.data).mp hq
      · intro _
        rfl
    | false =>
      rw [breakBones_req_direct st env hf hq] at h
      have hr := Option.some.inj h
      subst hr
      constructor
      · intro hqd
        simp at hqd
      · intro hex
        have hcontra : listContains st.imageSrc.data env.backendUrl.data = true :=
          (listContains_iff env.backendUrl.data st.imageSrc.data).mpr hex
        unfold jsIncludes at hq
        rw [hcontra] at hq
        exact absurd hq (by decide)

/-- State whose image source contains the backend URL only inside a query
component, not as a proper origin. -/
def c10state : PaintState :=
  ⟨"x?u=http://backend/z", "x?u=http://backend/z", diagCanvas, 2, 2, 2, 2, [], []⟩

def c10env : Env :=
  ⟨"http://backend", NetResp.badStatus, "1700000000000", "blob:a"⟩

def c10req : Request :=
  ((breakBones c10state c10env).1).getD ⟨Endpoint.direct, []⟩

/-- Witness for C10: an image source containing the backend URL mid-string
(inside a query) is submitted to the queued endpoint. -/
theorem c10_mode_substring_witness :
    c10req.endpoint = Endpoint.queued := by
  have h : (breakBones c10state c10env).1 = some c10req := by with_unfolding_all rfl
  exact (c10_mode_substring c10state c10env c10req h).mpr
    ⟨"x?u=".data, "/z".data, by decide⟩

end TeddyPaint
